import Mathlib

/-!
Verification of the durable streaming-permission scheduler
(src/bot/exts/moderation/stream.py).

Shallow embedding conventions:
* Member ids are natural numbers; timestamps are integers (epoch seconds).
  Naive UTC datetimes are represented directly by their epoch seconds, so
  the conversions datetime.timestamp() and datetime.utcfromtimestamp(v)
  are both the identity on this representation.
* The Redis task cache and the in-memory scheduler are association lists
  from member id to timestamp; the steady-state invariant is that keys are
  unique (Nodup).
* Each command handler is translated to a function from a world state and
  its inputs to a triple (final world, trace of external effects, outcome).
  An effect appears in the trace when the corresponding call is issued,
  even when that call then raises; a raised call truncates everything that
  follows it in the Python function. Calls whose failure a claim exercises
  take an explicit Bool parameter saying whether they raise.
* bot.utils.scheduling.Scheduler and async_rediscache.RedisCache are not
  part of the repository sources under inspection; their operations are
  modelled from the spec (sections 4.1 and 4.2), as marked on each
  definition.
-/

namespace StreamBot

abbrev MemberId := Nat

/-- Epoch seconds. Naive UTC datetimes are represented by their epoch seconds. -/
abbrev Timestamp := Int

/-- Model of datetime.timestamp() on the naive UTC datetimes this cog builds:
identity on the epoch-seconds representation. -/
def datetimeTimestamp (dt : Timestamp) : Timestamp := dt

/-- Model of datetime.utcfromtimestamp: identity on the epoch-seconds
representation. -/
def utcfromtimestamp (v : Timestamp) : Timestamp := v

/-- Keys of an association list. -/
def keys (l : List (MemberId × Timestamp)) : List MemberId := l.map Prod.fst

/-- First value stored under a key, if any. -/
def lookupKey : List (MemberId × Timestamp) → MemberId → Option Timestamp
  | [], _ => none
  | p :: t, k => if p.1 = k then some p.2 else lookupKey t k

/-- Remove every entry stored under a key. -/
def eraseKey : List (MemberId × Timestamp) → MemberId → List (MemberId × Timestamp)
  | [], _ => []
  | p :: t, k => if p.1 = k then eraseKey t k else p :: eraseKey t k

/-- Modelled from the spec (section 4.1): RedisCache.set is an upsert with no
error on overwrite. -/
def cacheSet (c : List (MemberId × Timestamp)) (k : MemberId) (v : Timestamp) :
    List (MemberId × Timestamp) :=
  (k, v) :: eraseKey c k

/-- Modelled from the spec (section 4.1): RedisCache.delete removes the record
if present, no error if absent. -/
def cacheDelete (c : List (MemberId × Timestamp)) (k : MemberId) :
    List (MemberId × Timestamp) :=
  eraseKey c k

/-- Modelled from the spec (section 4.2): Scheduler.schedule_at arms a timer for
a task id; if the id is already pending the prior timer is invalidated first
(supersede semantics), so afterwards exactly the new timer is pending. The
argument order (time, then task id) follows the call sites in the source. -/
def schedule_at (s : List (MemberId × Timestamp)) (due : Timestamp) (id : MemberId) :
    List (MemberId × Timestamp) :=
  (id, due) :: eraseKey s id

/-- Modelled from the spec (section 4.2): Scheduler.cancel invalidates the timer
for an id; cancelling an id that is not pending is a no-op and returns without
error. -/
def sched_cancel (s : List (MemberId × Timestamp)) (id : MemberId) :
    List (MemberId × Timestamp) :=
  eraseKey s id

/-- Modelled from the spec (section 4.2): the O(1) pending-membership query,
`member.id in self.scheduler` in the source. -/
def sched_contains (s : List (MemberId × Timestamp)) (id : MemberId) : Bool :=
  (lookupKey s id).isSome

/-- Modelled from the spec (section 4.2): the delay until an armed timer fires;
a due_at already in the past yields a zero delay (fires immediately/ASAP)
rather than an error. -/
def schedDelay (due now : Timestamp) : Timestamp := max (due - now) 0

/-- A guild member as seen by the cog: its id and the ids of its roles. -/
structure Member where
  id : MemberId
  roles : List Nat
  deriving DecidableEq, Repr

/-- External effects issued by the cog, in program order. -/
inductive Effect where
  | schedAt (due : Timestamp) (id : MemberId)
  | schedCancelE (id : MemberId)
  | cacheSetE (id : MemberId) (v : Timestamp)
  | cacheDelE (id : MemberId)
  | addRolesE (id : MemberId)
  | removeRolesE (id : MemberId)
  | sendCheck (id : MemberId)
  | sendCross (id : MemberId)
  deriving DecidableEq, Repr

/-- Whether the translated Python function returned normally or let an
exception propagate to its caller. -/
inductive Outcome where
  | ok
  | raised
  deriving DecidableEq, Repr

/-- The mutable state the cog owns: the in-memory scheduler map and the durable
Redis task cache. -/
structure World where
  sched : List (MemberId × Timestamp)
  cache : List (MemberId × Timestamp)
  deriving DecidableEq, Repr

/-- Replay semantics of a single effect on the world; role changes and messages
do not touch the scheduler or the cache. -/
def applyEffect (w : World) (e : Effect) : World :=
  match e with
  | Effect.schedAt due id => { w with sched := schedule_at w.sched due id }
  | Effect.schedCancelE id => { w with sched := sched_cancel w.sched id }
  | Effect.cacheSetE id v => { w with cache := cacheSet w.cache id v }
  | Effect.cacheDelE id => { w with cache := cacheDelete w.cache id }
  | Effect.addRolesE _ => w
  | Effect.removeRolesE _ => w
  | Effect.sendCheck _ => w
  | Effect.sendCross _ => w

/-- Replay a trace of effects on the world. -/
def applyTrace (w : World) (tr : List Effect) : World :=
  tr.foldl applyEffect w

/-- Translation of Stream._revoke_streaming_permission (src lines 34-37):
delete the task-cache record for the member, then issue the role-removal
request. removeRolesFails injects a failure of member.remove_roles; the
cache delete has already happened either way. -/
def revokeStreamingPermission (w : World) (memberId : MemberId)
    (removeRolesFails : Bool) : World × List Effect × Outcome :=
  let w1 : World := { w with cache := cacheDelete w.cache memberId }
  (w1, [Effect.cacheDelE memberId, Effect.removeRolesE memberId],
    if removeRolesFails then Outcome.raised else Outcome.ok)

/-- Modelled from the spec (section 4.2): the firing of a pending timer, which
lives in bot.utils.scheduling.Scheduler, not in the sources under inspection.
The scheduler invokes the stored action (here always
Stream._revoke_streaming_permission) and the task leaves the pending set after
the action returns or fails. -/
def fireTask (w : World) (memberId : MemberId) (removeRolesFails : Bool) :
    World × List Effect × Outcome :=
  let r := revokeStreamingPermission w memberId removeRolesFails
  ({ r.1 with sched := sched_cancel r.1.sched memberId }, r.2.1, r.2.2)

/-- Outcome of resolving a member id against the guild, covering the
get_member / fetch_member calls in the reload path: the member is found, the
fetch raises discord.errors.NotFound, or it raises another discord
HTTPException (transient backend failure). -/
inductive ResolveResult where
  | found
  | notFound
  | httpError
  deriving DecidableEq, Repr

/-- One iteration of the loop in Stream._reload_tasks_from_redis
(src lines 43-65): NotFound deletes the cache record and continues;
HTTPException logs and continues, touching nothing; a resolved member is
re-armed at utcfromtimestamp of the stored value. -/
def reloadStep (resolve : MemberId → ResolveResult) (w : World)
    (kv : MemberId × Timestamp) : World :=
  match resolve kv.1 with
  | ResolveResult.notFound => { w with cache := cacheDelete w.cache kv.1 }
  | ResolveResult.httpError => w
  | ResolveResult.found =>
      { w with sched := schedule_at w.sched (utcfromtimestamp kv.2) kv.1 }

/-- Translation of Stream._reload_tasks_from_redis (src lines 39-65): iterate
over a snapshot of the task-cache items, resolving and re-arming each one.
The snapshot is taken once before the loop, as in the source. -/
def reloadTasksFromRedis (resolve : MemberId → ResolveResult) (w : World) : World :=
  List.foldl (reloadStep resolve) w w.cache

/-- Translation of the stream command (src lines 69-105). duration = none takes
the default-duration branch; a member that already has the video role is
refused with a cross-mark message. Otherwise the scheduler timer is armed
first (line 100) and the record is persisted second (line 101); cacheSetFails
injects a failure of that task_cache.set call, which then propagates out of
the command before add_roles and the confirmation message. -/
def streamCmd (video : Nat) (now defaultDuration : Timestamp) (w : World)
    (m : Member) (duration : Option Timestamp) (cacheSetFails : Bool) :
    World × List Effect × Outcome :=
  let dur : Timestamp :=
    match duration with
    | none => now + defaultDuration
    | some d => d
  if m.roles.contains video then
    (w, [Effect.sendCross m.id], Outcome.ok)
  else
    let w1 : World := { w with sched := schedule_at w.sched dur m.id }
    if cacheSetFails then
      (w1, [Effect.schedAt dur m.id, Effect.cacheSetE m.id (datetimeTimestamp dur)],
        Outcome.raised)
    else
      let w2 : World := { w1 with cache := cacheSet w1.cache m.id (datetimeTimestamp dur) }
      (w2,
        [Effect.schedAt dur m.id, Effect.cacheSetE m.id (datetimeTimestamp dur),
          Effect.addRolesE m.id, Effect.sendCheck m.id],
        Outcome.ok)

/-- Translation of the permanentstream command (src lines 109-129): for a
member that already has the video role and is pending, cancel the timer and
delete the record (upgrade to permanent); otherwise either report the member
can already stream, or grant the role permanently. -/
def permanentstreamCmd (video : Nat) (w : World) (m : Member) :
    World × List Effect × Outcome :=
  if m.roles.contains video then
    if sched_contains w.sched m.id then
      ({ sched := sched_cancel w.sched m.id, cache := cacheDelete w.cache m.id },
        [Effect.schedCancelE m.id, Effect.cacheDelE m.id, Effect.sendCheck m.id],
        Outcome.ok)
    else
      (w, [Effect.sendCross m.id], Outcome.ok)
  else
    (w, [Effect.addRolesE m.id, Effect.sendCheck m.id], Outcome.ok)

/-- Translation of the revokestream command (src lines 133-147): if the member
has the video role, cancel the pending timer only when the membership check
says one is pending, then run _revoke_streaming_permission; otherwise report
there is nothing to remove. -/
def revokestreamCmd (video : Nat) (w : World) (m : Member)
    (removeRolesFails : Bool) : World × List Effect × Outcome :=
  if m.roles.contains video then
    let pending := sched_contains w.sched m.id
    let w1 : World := if pending then { w with sched := sched_cancel w.sched m.id } else w
    let cancelTr : List Effect := if pending then [Effect.schedCancelE m.id] else []
    let r := revokeStreamingPermission w1 m.id removeRolesFails
    match r.2.2 with
    | Outcome.ok => (r.1, cancelTr ++ r.2.1 ++ [Effect.sendCheck m.id], Outcome.ok)
    | Outcome.raised => (r.1, cancelTr ++ r.2.1, Outcome.raised)
  else
    (w, [Effect.sendCross m.id], Outcome.ok)

/-- An abstract scheduler operation, for stating invariants over arbitrary
sequences of arm and cancel calls. -/
inductive SchedOp where
  | arm (due : Timestamp) (id : MemberId)
  | cancel (id : MemberId)
  deriving DecidableEq, Repr

/-- Apply one abstract scheduler operation. -/
def applySchedOp (s : List (MemberId × Timestamp)) : SchedOp → List (MemberId × Timestamp)
  | SchedOp.arm due id => schedule_at s due id
  | SchedOp.cancel id => sched_cancel s id

/-- Run a sequence of abstract scheduler operations. -/
def runSchedOps (s : List (MemberId × Timestamp)) (ops : List SchedOp) :
    List (MemberId × Timestamp) :=
  ops.foldl applySchedOp s

/-! Helper lemmas about the store and scheduler maps. -/

lemma lookupKey_cons (p : MemberId × Timestamp) (t : List (MemberId × Timestamp))
    (k : MemberId) :
    lookupKey (p :: t) k = if p.1 = k then some p.2 else lookupKey t k := rfl

lemma lookupKey_cons_mk (i : MemberId) (v : Timestamp)
    (t : List (MemberId × Timestamp)) (k : MemberId) :
    lookupKey ((i, v) :: t) k = if i = k then some v else lookupKey t k := rfl

lemma eraseKey_cons (p : MemberId × Timestamp) (t : List (MemberId × Timestamp))
    (k : MemberId) :
    eraseKey (p :: t) k = if p.1 = k then eraseKey t k else p :: eraseKey t k := rfl

lemma lookupKey_eraseKey_self (l : List (MemberId × Timestamp)) (k : MemberId) :
    lookupKey (eraseKey l k) k = none := by
  induction l with
  | nil => rfl
  | cons p t ih =>
      rw [eraseKey_cons]
      by_cases h : p.1 = k
      · rw [if_pos h]
        exact ih
      · rw [if_neg h, lookupKey_cons, if_neg h]
        exact ih

lemma lookupKey_eraseKey_ne (l : List (MemberId × Timestamp)) {j k : MemberId}
    (h : j ≠ k) : lookupKey (eraseKey l k) j = lookupKey l j := by
  induction l with
  | nil => rfl
  | cons p t ih =>
      rw [eraseKey_cons, lookupKey_cons]
      by_cases hp : p.1 = k
      · have hpj : ¬ p.1 = j := by
          rw [hp]
          exact fun he => h he.symm
        rw [if_pos hp, if_neg hpj]
        exact ih
      · rw [if_neg hp, lookupKey_cons]
        by_cases hj : p.1 = j
        · rw [if_pos hj, if_pos hj]
        · rw [if_neg hj, if_neg hj]
          exact ih

lemma eraseKey_sublist (l : List (MemberId × Timestamp)) (k : MemberId) :
    List.Sublist (eraseKey l k) l := by
  induction l with
  | nil => exact List.Sublist.refl []
  | cons p t ih =>
      rw [eraseKey_cons]
      by_cases h : p.1 = k
      · rw [if_pos h]
        exact ih.trans (List.sublist_cons_self p t)
      · rw [if_neg h]
        exact ih.cons₂ p

lemma keys_eraseKey_nodup {l : List (MemberId × Timestamp)} (k : MemberId)
    (h : (keys l).Nodup) : (keys (eraseKey l k)).Nodup :=
  h.sublist ((eraseKey_sublist l k).map Prod.fst)

lemma lookupKey_eq_none_iff (l : List (MemberId × Timestamp)) (k : MemberId) :
    lookupKey l k = none ↔ k ∉ keys l := by
  induction l with
  | nil => simp [lookupKey, keys]
  | cons p t ih =>
      rw [lookupKey_cons]
      by_cases h : p.1 = k
      · rw [if_pos h]
        simp only [keys, List.map_cons, List.mem_cons]
        constructor
        · intro hh
          cases hh
        · intro hh
          exact absurd (Or.inl h.symm) hh
      · rw [if_neg h]
        simp only [keys, List.map_cons, List.mem_cons] at ih ⊢
        rw [ih]
        constructor
        · intro hh hcon
          rcases hcon with hc | hc
          · exact h hc.symm
          · exact hh hc
        · intro hh hc
          exact hh (Or.inr hc)

lemma not_mem_keys_eraseKey (l : List (MemberId × Timestamp)) (k : MemberId) :
    k ∉ keys (eraseKey l k) :=
  (lookupKey_eq_none_iff (eraseKey l k) k).mp (lookupKey_eraseKey_self l k)

lemma keys_cons_erase_nodup {l : List (MemberId × Timestamp)} (k : MemberId)
    (v : Timestamp) (h : (keys l).Nodup) :
    (keys ((k, v) :: eraseKey l k)).Nodup := by
  simp only [keys, List.map_cons, List.nodup_cons]
  exact ⟨not_mem_keys_eraseKey l k, keys_eraseKey_nodup k h⟩

lemma eraseKey_eq_self_of_not_mem {l : List (MemberId × Timestamp)}
    {k : MemberId} (h : k ∉ keys l) : eraseKey l k = l := by
  induction l with
  | nil => rfl
  | cons p t ih =>
      simp only [keys, List.map_cons, List.mem_cons] at h
      push_neg at h
      have hp : ¬ p.1 = k := fun he => h.1 he.symm
      rw [eraseKey_cons, if_neg hp, ih h.2]

lemma lookupKey_eq_some_of_mem {l : List (MemberId × Timestamp)}
    {k : MemberId} {v : Timestamp} (hnd : (keys l).Nodup) (hm : (k, v) ∈ l) :
    lookupKey l k = some v := by
  induction l with
  | nil => cases hm
  | cons p t ih =>
      simp only [keys, List.map_cons, List.nodup_cons] at hnd
      rw [lookupKey_cons]
      rcases List.mem_cons.mp hm with he | ht
      · have h1 : p.1 = k := by rw [← he]
        rw [if_pos h1, ← he]
      · have hp : ¬ p.1 = k := by
          intro hpk
          apply hnd.1
          rw [hpk]
          exact List.mem_map_of_mem Prod.fst ht
        rw [if_neg hp]
        exact ih hnd.2 ht

lemma lookupKey_schedule_at_same (s : List (MemberId × Timestamp))
    (due : Timestamp) (i : MemberId) :
    lookupKey (schedule_at s due i) i = some due := by
  unfold schedule_at
  rw [lookupKey_cons_mk, if_pos rfl]

lemma lookupKey_schedule_at_ne (s : List (MemberId × Timestamp))
    (due : Timestamp) {i j : MemberId} (h : i ≠ j) :
    lookupKey (schedule_at s due i) j = lookupKey s j := by
  unfold schedule_at
  rw [lookupKey_cons_mk, if_neg h]
  exact lookupKey_eraseKey_ne s (fun he => h he.symm)

lemma lookupKey_cacheSet_same (c : List (MemberId × Timestamp)) (k : MemberId)
    (v : Timestamp) : lookupKey (cacheSet c k v) k = some v := by
  unfold cacheSet
  rw [lookupKey_cons_mk, if_pos rfl]

lemma lookupKey_cacheSet_ne (c : List (MemberId × Timestamp)) (v : Timestamp)
    {k j : MemberId} (h : k ≠ j) :
    lookupKey (cacheSet c k v) j = lookupKey c j := by
  unfold cacheSet
  rw [lookupKey_cons_mk, if_neg h]
  exact lookupKey_eraseKey_ne c (fun he => h he.symm)

/-! Fold lemmas for the startup-reconciliation loop. -/

lemma reloadStep_found {resolve : MemberId → ResolveResult}
    {a : MemberId × Timestamp} (h : resolve a.1 = ResolveResult.found) (w : World) :
    reloadStep resolve w a
      = { w with sched := schedule_at w.sched (utcfromtimestamp a.2) a.1 } := by
  unfold reloadStep
  rw [h]

lemma reloadStep_notFound {resolve : MemberId → ResolveResult}
    {a : MemberId × Timestamp} (h : resolve a.1 = ResolveResult.notFound) (w : World) :
    reloadStep resolve w a = { w with cache := cacheDelete w.cache a.1 } := by
  unfold reloadStep
  rw [h]

lemma reloadStep_httpError {resolve : MemberId → ResolveResult}
    {a : MemberId × Timestamp} (h : resolve a.1 = ResolveResult.httpError) (w : World) :
    reloadStep resolve w a = w := by
  unfold reloadStep
  rw [h]

lemma reload_foldl_notmem (resolve : MemberId → ResolveResult)
    (l : List (MemberId × Timestamp)) (w : World) (k : MemberId)
    (hk : k ∉ l.map Prod.fst) :
    lookupKey (List.foldl (reloadStep resolve) w l).sched k = lookupKey w.sched k ∧
    lookupKey (List.foldl (reloadStep resolve) w l).cache k = lookupKey w.cache k := by
  induction l generalizing w with
  | nil => exact ⟨rfl, rfl⟩
  | cons a t ih =>
      simp only [List.map_cons, List.mem_cons] at hk
      push_neg at hk
      have hak : a.1 ≠ k := fun he => hk.1 he.symm
      have hstep :
          lookupKey (reloadStep resolve w a).sched k = lookupKey w.sched k ∧
          lookupKey (reloadStep resolve w a).cache k = lookupKey w.cache k := by
        cases hres : resolve a.1 with
        | found =>
            rw [reloadStep_found hres]
            exact ⟨lookupKey_schedule_at_ne w.sched _ hak, rfl⟩
        | notFound =>
            rw [reloadStep_notFound hres]
            exact ⟨rfl, lookupKey_eraseKey_ne w.cache hk.1⟩
        | httpError =>
            rw [reloadStep_httpError hres]
            exact ⟨rfl, rfl⟩
      rw [List.foldl_cons]
      have hrest := ih (reloadStep resolve w a) hk.2
      exact ⟨hrest.1.trans hstep.1, hrest.2.trans hstep.2⟩

lemma reload_foldl_found (resolve : MemberId → ResolveResult)
    (l : List (MemberId × Timestamp)) (w : World) (k : MemberId) (v : Timestamp)
    (hnd : (l.map Prod.fst).Nodup) (hmem : (k, v) ∈ l)
    (hres : resolve k = ResolveResult.found) :
    lookupKey (List.foldl (reloadStep resolve) w l).sched k
      = some (utcfromtimestamp v) := by
  induction l generalizing w with
  | nil => cases hmem
  | cons a t ih =>
      obtain ⟨a1, a2⟩ := a
      simp only [List.map_cons, List.nodup_cons] at hnd
      rw [List.foldl_cons]
      rcases List.mem_cons.mp hmem with he | ht
      · have h1 : k = a1 := congrArg Prod.fst he
        have h2 : v = a2 := congrArg Prod.snd he
        subst h1
        subst h2
        have hstep : reloadStep resolve w (k, v) =
            { w with sched := schedule_at w.sched (utcfromtimestamp v) k } :=
          reloadStep_found hres w
        rw [hstep, (reload_foldl_notmem resolve t _ k hnd.1).1]
        exact lookupKey_schedule_at_same _ _ _
      · exact ih (reloadStep resolve w (a1, a2)) hnd.2 ht

lemma reload_foldl_notFound (resolve : MemberId → ResolveResult)
    (l : List (MemberId × Timestamp)) (w : World) (k : MemberId) (v : Timestamp)
    (hnd : (l.map Prod.fst).Nodup) (hmem : (k, v) ∈ l)
    (hres : resolve k = ResolveResult.notFound) :
    lookupKey (List.foldl (reloadStep resolve) w l).cache k = none ∧
    lookupKey (List.foldl (reloadStep resolve) w l).sched k
      = lookupKey w.sched k := by
  induction l generalizing w with
  | nil => cases hmem
  | cons a t ih =>
      obtain ⟨a1, a2⟩ := a
      simp only [List.map_cons, List.nodup_cons] at hnd
      rw [List.foldl_cons]
      rcases List.mem_cons.mp hmem with he | ht
      · have h1 : k = a1 := congrArg Prod.fst he
        have h2 : v = a2 := congrArg Prod.snd he
        subst h1
        subst h2
        have hstep : reloadStep resolve w (k, v) =
            { w with cache := cacheDelete w.cache k } :=
          reloadStep_notFound hres w
        rw [hstep]
        have hrest := reload_foldl_notmem resolve t
          { w with cache := cacheDelete w.cache k } k hnd.1
        refine ⟨?_, ?_⟩
        · rw [hrest.2]
          exact lookupKey_eraseKey_self w.cache k
        · rw [hrest.1]
      · have hak : a1 ≠ k := by
          intro hpk
          apply hnd.1
          rw [hpk]
          exact List.mem_map_of_mem Prod.fst ht
        have hstep :
            lookupKey (reloadStep resolve w (a1, a2)).sched k = lookupKey w.sched k ∧
            lookupKey (reloadStep resolve w (a1, a2)).cache k = lookupKey w.cache k := by
          cases hres2 : resolve a1 with
          | found =>
              rw [reloadStep_found hres2]
              exact ⟨lookupKey_schedule_at_ne w.sched _ hak, rfl⟩
          | notFound =>
              rw [reloadStep_notFound hres2]
              exact ⟨rfl, lookupKey_eraseKey_ne w.cache (fun he => hak he.symm)⟩
          | httpError =>
              rw [reloadStep_httpError hres2]
              exact ⟨rfl, rfl⟩
        have hih := ih (reloadStep resolve w (a1, a2)) hnd.2 ht
        exact ⟨hih.1, hih.2.trans hstep.1⟩

lemma reload_foldl_httpError (resolve : MemberId → ResolveResult)
    (l : List (MemberId × Timestamp)) (w : World) (k : MemberId) (v : Timestamp)
    (hnd : (l.map Prod.fst).Nodup) (hmem : (k, v) ∈ l)
    (hres : resolve k = ResolveResult.httpError) :
    lookupKey (List.foldl (reloadStep resolve) w l).cache k
      = lookupKey w.cache k ∧
    lookupKey (List.foldl (reloadStep resolve) w l).sched k
      = lookupKey w.sched k := by
  induction l generalizing w with
  | nil => cases hmem
  | cons a t ih =>
      obtain ⟨a1, a2⟩ := a
      simp only [List.map_cons, List.nodup_cons] at hnd
      rw [List.foldl_cons]
      rcases List.mem_cons.mp hmem with he | ht
      · have h1 : k = a1 := congrArg Prod.fst he
        have h2 : v = a2 := congrArg Prod.snd he
        subst h1
        subst h2
        have hstep : reloadStep resolve w (k, v) = w :=
          reloadStep_httpError hres w
        rw [hstep]
        have hrest := reload_foldl_notmem resolve t w k hnd.1
        exact ⟨hrest.2, hrest.1⟩
      · have hak : a1 ≠ k := by
          intro hpk
          apply hnd.1
          rw [hpk]
          exact List.mem_map_of_mem Prod.fst ht
        have hstep :
            lookupKey (reloadStep resolve w (a1, a2)).sched k = lookupKey w.sched k ∧
            lookupKey (reloadStep resolve w (a1, a2)).cache k = lookupKey w.cache k := by
          cases hres2 : resolve a1 with
          | found =>
              rw [reloadStep_found hres2]
              exact ⟨lookupKey_schedule_at_ne w.sched _ hak, rfl⟩
          | notFound =>
              rw [reloadStep_notFound hres2]
              exact ⟨rfl, lookupKey_eraseKey_ne w.cache (fun he => hak he.symm)⟩
          | httpError =>
              rw [reloadStep_httpError hres2]
              exact ⟨rfl, rfl⟩
        have hih := ih (reloadStep resolve w (a1, a2)) hnd.2 ht
        exact ⟨hih.1.trans hstep.2, hih.2.trans hstep.1⟩

/-- The Nodup-keys invariant is preserved by any sequence of scheduler
operations. -/
lemma runSchedOps_nodup (s : List (MemberId × Timestamp)) (ops : List SchedOp)
    (hnd : (keys s).Nodup) : (keys (runSchedOps s ops)).Nodup := by
  induction ops generalizing s with
  | nil => exact hnd
  | cons o t ih =>
      have hstep : (keys (applySchedOp s o)).Nodup := by
        cases o with
        | arm due id => exact keys_cons_erase_nodup id due hnd
        | cancel id => exact keys_eraseKey_nodup id hnd
      exact ih (applySchedOp s o) hstep

/-! Claim theorems. -/

/-- Claim C1, counterexample: run the stream command with an empty world,
member 7 without the video role, duration 100 and a failing task_cache.set.
The command raises, yet the timer for 7 is already armed and no record was
persisted, and the trace shows schedule_at issued before task_cache.set: the
durable record is not persisted before the timer starts, and a failed persist
leaves an un-persisted pending timer rather than preventing the timer. -/
theorem C1_counterexample :
    (streamCmd 0 0 0 ⟨[], []⟩ ⟨7, []⟩ (some 100) true).2.2 = Outcome.raised ∧
    sched_contains (streamCmd 0 0 0 ⟨[], []⟩ ⟨7, []⟩ (some 100) true).1.sched 7 = true ∧
    lookupKey (streamCmd 0 0 0 ⟨[], []⟩ ⟨7, []⟩ (some 100) true).1.cache 7 = none ∧
    (streamCmd 0 0 0 ⟨[], []⟩ ⟨7, []⟩ (some 100) true).2.1
      = [Effect.schedAt 100 7, Effect.cacheSetE 7 100] := by
  refine ⟨rfl, rfl, rfl, rfl⟩

/-- Claim C1, amended: in the stream command the in-memory timer is started
first and the durable record is persisted second (schedule_at precedes
task_cache.set in every successful trace); when the persist fails, the
failure does propagate visibly to the caller, but the already-started timer
remains armed while the durable store is left unchanged, so an un-persisted
pending timer is exactly what remains. -/
theorem C1_amended (video : Nat) (now dflt : Timestamp) (w : World) (m : Member)
    (dur : Timestamp) (h : m.roles.contains video = false) :
    (streamCmd video now dflt w m (some dur) false).2.1
      = [Effect.schedAt dur m.id, Effect.cacheSetE m.id (datetimeTimestamp dur),
          Effect.addRolesE m.id, Effect.sendCheck m.id] ∧
    (streamCmd video now dflt w m (some dur) true).2.2 = Outcome.raised ∧
    sched_contains (streamCmd video now dflt w m (some dur) true).1.sched m.id = true ∧
    (streamCmd video now dflt w m (some dur) true).1.cache = w.cache := by
  have hmem : video ∉ m.roles := by simpa using h
  refine ⟨?_, ?_, ?_, ?_⟩ <;>
    simp [streamCmd, hmem, sched_contains, lookupKey_schedule_at_same]

/-- Witness for C1_amended at video 0, member 7 with no roles, duration 100. -/
theorem C1_amended_witness :
    (([] : List Nat).contains 0 = false) ∧
    ((streamCmd 0 0 0 ⟨[], []⟩ ⟨7, []⟩ (some 100) false).2.1
        = [Effect.schedAt 100 7, Effect.cacheSetE 7 100,
            Effect.addRolesE 7, Effect.sendCheck 7] ∧
      (streamCmd 0 0 0 ⟨[], []⟩ ⟨7, []⟩ (some 100) true).2.2 = Outcome.raised ∧
      sched_contains (streamCmd 0 0 0 ⟨[], []⟩ ⟨7, []⟩ (some 100) true).1.sched 7 = true ∧
      (streamCmd 0 0 0 ⟨[], []⟩ ⟨7, []⟩ (some 100) true).1.cache
        = ([] : List (MemberId × Timestamp))) :=
  ⟨rfl, C1_amended 0 0 0 ⟨[], []⟩ ⟨7, []⟩ 100 rfl⟩

/-- Claim C2: the arm path persists exactly duration.timestamp() for the
member, and startup reconciliation re-arms the member at utcfromtimestamp of
the stored value, which is the original absolute due instant: the write at
arm time and the read at reload time round-trip to the same instant, not to a
shifted or recomputed one. -/
theorem C2_roundtrip (video : Nat) (now dflt : Timestamp) (w : World) (m : Member)
    (dur : Timestamp) (resolve : MemberId → ResolveResult)
    (hrole : m.roles.contains video = false)
    (hnd : (keys w.cache).Nodup)
    (hres : resolve m.id = ResolveResult.found) :
    lookupKey (streamCmd video now dflt w m (some dur) false).1.cache m.id
      = some (datetimeTimestamp dur) ∧
    lookupKey (reloadTasksFromRedis resolve
        { sched := [],
          cache := (streamCmd video now dflt w m (some dur) false).1.cache }).sched m.id
      = some dur := by
  have hcache : (streamCmd video now dflt w m (some dur) false).1.cache
      = cacheSet w.cache m.id (datetimeTimestamp dur) := by
    have hmem : video ∉ m.roles := by simpa using hrole
    simp [streamCmd, hmem]
  constructor
  · rw [hcache]
    exact lookupKey_cacheSet_same _ _ _
  · rw [hcache]
    have hmem : (m.id, datetimeTimestamp dur)
        ∈ cacheSet w.cache m.id (datetimeTimestamp dur) :=
      List.mem_cons_self _ _
    have hnd2 : ((cacheSet w.cache m.id (datetimeTimestamp dur)).map Prod.fst).Nodup :=
      keys_cons_erase_nodup m.id _ hnd
    have hfold := reload_foldl_found resolve
      (cacheSet w.cache m.id (datetimeTimestamp dur))
      { sched := [], cache := cacheSet w.cache m.id (datetimeTimestamp dur) }
      m.id (datetimeTimestamp dur) hnd2 hmem hres
    simpa [reloadTasksFromRedis, utcfromtimestamp, datetimeTimestamp] using hfold

/-- Witness for C2_roundtrip at member 9, duration 50, an always-found
resolver and an empty initial world. -/
theorem C2_roundtrip_witness :
    (([] : List Nat).contains 0 = false) ∧
    (keys ([] : List (MemberId × Timestamp))).Nodup ∧
    ((fun _ : MemberId => ResolveResult.found) 9 = ResolveResult.found) ∧
    (lookupKey (streamCmd 0 0 0 ⟨[], []⟩ ⟨9, []⟩ (some 50) false).1.cache 9
        = some 50 ∧
      lookupKey (reloadTasksFromRedis (fun _ => ResolveResult.found)
          { sched := [],
            cache := (streamCmd 0 0 0 ⟨[], []⟩ ⟨9, []⟩ (some 50) false).1.cache }).sched 9
        = some 50) :=
  ⟨rfl, List.nodup_nil, rfl,
    C2_roundtrip 0 0 0 ⟨[], []⟩ ⟨9, []⟩ 50 (fun _ => ResolveResult.found)
      rfl List.nodup_nil rfl⟩

/-- Claim C3: a persisted record whose member resolves to NotFound during
startup reconciliation has its durable record deleted and no timer armed,
while reconciliation continues normally: every other record whose member
resolves successfully is still re-armed at its stored due time. -/
theorem C3_prune_missing (resolve : MemberId → ResolveResult) (w : World)
    (k : MemberId) (v : Timestamp)
    (hnd : (keys w.cache).Nodup) (hmem : (k, v) ∈ w.cache)
    (hres : resolve k = ResolveResult.notFound)
    (hsched : lookupKey w.sched k = none) :
    lookupKey (reloadTasksFromRedis resolve w).cache k = none ∧
    lookupKey (reloadTasksFromRedis resolve w).sched k = none ∧
    ∀ j u, (j, u) ∈ w.cache → resolve j = ResolveResult.found →
      lookupKey (reloadTasksFromRedis resolve w).sched j = some (utcfromtimestamp u) := by
  have h1 := reload_foldl_notFound resolve w.cache w k v hnd hmem hres
  refine ⟨h1.1, h1.2.trans hsched, ?_⟩
  intro j u hj hresj
  exact reload_foldl_found resolve w.cache w j u hnd hj hresj

/-- Witness for C3_prune_missing: records for members 2 and 3, member 2 is
NotFound and gets pruned, member 3 resolves and is re-armed at its stored
time 40. -/
theorem C3_prune_missing_witness :
    (keys [((2 : MemberId), (30 : Timestamp)), (3, 40)]).Nodup ∧
    ((2 : MemberId), (30 : Timestamp)) ∈ [((2 : MemberId), (30 : Timestamp)), (3, 40)] ∧
    ((fun k : MemberId => if k = 2 then ResolveResult.notFound else ResolveResult.found) 2
      = ResolveResult.notFound) ∧
    (lookupKey (reloadTasksFromRedis
        (fun k => if k = 2 then ResolveResult.notFound else ResolveResult.found)
        ⟨[], [(2, 30), (3, 40)]⟩).cache 2 = none ∧
      lookupKey (reloadTasksFromRedis
        (fun k => if k = 2 then ResolveResult.notFound else ResolveResult.found)
        ⟨[], [(2, 30), (3, 40)]⟩).sched 2 = none ∧
      lookupKey (reloadTasksFromRedis
        (fun k => if k = 2 then ResolveResult.notFound else ResolveResult.found)
        ⟨[], [(2, 30), (3, 40)]⟩).sched 3 = some 40) := by
  have h := C3_prune_missing
    (fun k => if k = 2 then ResolveResult.notFound else ResolveResult.found)
    ⟨[], [(2, 30), (3, 40)]⟩ 2 30 (by decide) (by decide) (by decide) rfl
  exact ⟨by decide, by decide, by decide,
    h.1, h.2.1, h.2.2 3 40 (by decide) (by decide)⟩

/-- Claim C4: when a pending action fires, the durable record is deleted
regardless of whether the role-removal succeeds or raises: after a fire with
either outcome, no task-cache record for the member remains, and a failing
removal indeed propagates as an exception from the action. -/
theorem C4_record_deleted_unconditionally (w : World) (id : MemberId) :
    lookupKey (fireTask w id false).1.cache id = none ∧
    lookupKey (fireTask w id true).1.cache id = none ∧
    (fireTask w id false).2.2 = Outcome.ok ∧
    (fireTask w id true).2.2 = Outcome.raised := by
  refine ⟨?_, ?_, rfl, rfl⟩ <;> exact lookupKey_eraseKey_self w.cache id

/-- Claim C5: from any scheduler state with unique task ids, any sequence of
arm and cancel operations keeps at most one pending action per id at every
intermediate point, and arming an id that is already pending silently
supersedes it: the new due time is the one pending, keys stay unique, other
ids are untouched, and the record overwrite in the cache behaves the same
way; no error is possible. -/
theorem C5_at_most_one_pending (s : List (MemberId × Timestamp)) (ops : List SchedOp)
    (c : List (MemberId × Timestamp)) (d : Timestamp) (i : MemberId) (t : Timestamp)
    (hnd : (keys s).Nodup) (hndc : (keys c).Nodup) :
    (∀ n : Nat, (keys (runSchedOps s (List.take n ops))).Nodup) ∧
    lookupKey (schedule_at s d i) i = some d ∧
    (keys (schedule_at s d i)).Nodup ∧
    (∀ j, j ≠ i → lookupKey (schedule_at s d i) j = lookupKey s j) ∧
    lookupKey (cacheSet c i t) i = some t ∧
    (keys (cacheSet c i t)).Nodup :=
  ⟨fun n => runSchedOps_nodup s (List.take n ops) hnd,
    lookupKey_schedule_at_same s d i,
    keys_cons_erase_nodup i d hnd,
    fun _ hj => lookupKey_schedule_at_ne s d (fun he => hj he.symm),
    lookupKey_cacheSet_same c i t,
    keys_cons_erase_nodup i t hndc⟩

/-- Witness for C5_at_most_one_pending: id 4 is already pending at 10 and is
superseded by an arm at 20 inside a three-operation sequence. -/
theorem C5_at_most_one_pending_witness :
    (keys [((4 : MemberId), (10 : Timestamp))]).Nodup ∧
    ((keys (runSchedOps [(4, 10)]
        (List.take 3 [SchedOp.arm 20 4, SchedOp.cancel 5, SchedOp.arm 30 6]))).Nodup ∧
      lookupKey (schedule_at [(4, 10)] 20 4) 4 = some 20 ∧
      (keys (schedule_at [(4, 10)] 20 4)).Nodup ∧
      lookupKey (schedule_at [(4, 10)] 20 4) 5 = lookupKey [(4, 10)] 5 ∧
      lookupKey (cacheSet [(4, 10)] 4 60) 4 = some 60 ∧
      (keys (cacheSet [(4, 10)] 4 60)).Nodup) := by
  have h := C5_at_most_one_pending [(4, 10)]
    [SchedOp.arm 20 4, SchedOp.cancel 5, SchedOp.arm 30 6]
    [(4, 10)] 20 4 60 (by decide) (by decide)
  exact ⟨by decide,
    h.1 3, h.2.1, h.2.2.1, h.2.2.2.1 5 (by decide), h.2.2.2.2.1, h.2.2.2.2.2⟩

/-- Claim C6: a transient HTTPException while resolving a member during
startup reconciliation leaves that durable record untouched and arms no timer
for it this cycle, while reconciliation continues: every record whose member
resolves successfully is still re-armed at its stored due time. -/
theorem C6_transient_skip (resolve : MemberId → ResolveResult) (w : World)
    (k : MemberId) (v : Timestamp)
    (hnd : (keys w.cache).Nodup) (hmem : (k, v) ∈ w.cache)
    (hres : resolve k = ResolveResult.httpError)
    (hsched : lookupKey w.sched k = none) :
    lookupKey (reloadTasksFromRedis resolve w).cache k = some v ∧
    lookupKey (reloadTasksFromRedis resolve w).sched k = none ∧
    ∀ j u, (j, u) ∈ w.cache → resolve j = ResolveResult.found →
      lookupKey (reloadTasksFromRedis resolve w).sched j = some (utcfromtimestamp u) := by
  have h1 := reload_foldl_httpError resolve w.cache w k v hnd hmem hres
  refine ⟨h1.1.trans (lookupKey_eq_some_of_mem hnd hmem), h1.2.trans hsched, ?_⟩
  intro j u hj hresj
  exact reload_foldl_found resolve w.cache w j u hnd hj hresj

/-- Witness for C6_transient_skip: records for members 5 and 6, resolving 5
hits a transient failure so its record survives unarmed, while 6 is still
re-armed at its stored time 60. -/
theorem C6_transient_skip_witness :
    (keys [((5 : MemberId), (50 : Timestamp)), (6, 60)]).Nodup ∧
    ((5 : MemberId), (50 : Timestamp)) ∈ [((5 : MemberId), (50 : Timestamp)), (6, 60)] ∧
    ((fun k : MemberId => if k = 5 then ResolveResult.httpError else ResolveResult.found) 5
      = ResolveResult.httpError) ∧
    (lookupKey (reloadTasksFromRedis
        (fun k => if k = 5 then ResolveResult.httpError else ResolveResult.found)
        ⟨[], [(5, 50), (6, 60)]⟩).cache 5 = some 50 ∧
      lookupKey (reloadTasksFromRedis
        (fun k => if k = 5 then ResolveResult.httpError else ResolveResult.found)
        ⟨[], [(5, 50), (6, 60)]⟩).sched 5 = none ∧
      lookupKey (reloadTasksFromRedis
        (fun k => if k = 5 then ResolveResult.httpError else ResolveResult.found)
        ⟨[], [(5, 50), (6, 60)]⟩).sched 6 = some 60) := by
  have h := C6_transient_skip
    (fun k => if k = 5 then ResolveResult.httpError else ResolveResult.found)
    ⟨[], [(5, 50), (6, 60)]⟩ 5 50 (by decide) (by decide) (by decide) rfl
  exact ⟨by decide, by decide, by decide,
    h.1, h.2.1, h.2.2 6 60 (by decide) (by decide)⟩

/-- Claim C7: upgrading a temporary grant to permanent for a pending member
cancels the timer and deletes the durable record in one command: afterwards
the member is not pending, no record for it exists, and the command
completes normally having issued exactly the cancel, the delete and the
confirmation. -/
theorem C7_cancel_and_forget (video : Nat) (w : World) (m : Member)
    (hrole : m.roles.contains video = true)
    (hpend : sched_contains w.sched m.id = true) :
    lookupKey (permanentstreamCmd video w m).1.sched m.id = none ∧
    lookupKey (permanentstreamCmd video w m).1.cache m.id = none ∧
    (permanentstreamCmd video w m).2.2 = Outcome.ok ∧
    (permanentstreamCmd video w m).2.1
      = [Effect.schedCancelE m.id, Effect.cacheDelE m.id, Effect.sendCheck m.id] := by
  have hmem : video ∈ m.roles := by simpa using hrole
  refine ⟨?_, ?_, ?_, ?_⟩ <;>
    simp [permanentstreamCmd, hmem, hpend, sched_cancel, cacheDelete,
      lookupKey_eraseKey_self]

/-- Witness for C7_cancel_and_forget: member 11 holds video role 3 and is
pending at 99; the upgrade leaves it unscheduled with no record. -/
theorem C7_cancel_and_forget_witness :
    ([(3 : Nat)].contains 3 = true) ∧
    sched_contains [((11 : MemberId), (99 : Timestamp))] 11 = true ∧
    (lookupKey (permanentstreamCmd 3 ⟨[(11, 99)], [(11, 99)]⟩ ⟨11, [3]⟩).1.sched 11
        = none ∧
      lookupKey (permanentstreamCmd 3 ⟨[(11, 99)], [(11, 99)]⟩ ⟨11, [3]⟩).1.cache 11
        = none ∧
      (permanentstreamCmd 3 ⟨[(11, 99)], [(11, 99)]⟩ ⟨11, [3]⟩).2.2 = Outcome.ok ∧
      (permanentstreamCmd 3 ⟨[(11, 99)], [(11, 99)]⟩ ⟨11, [3]⟩).2.1
        = [Effect.schedCancelE 11, Effect.cacheDelE 11, Effect.sendCheck 11]) :=
  ⟨rfl, rfl, C7_cancel_and_forget 3 ⟨[(11, 99)], [(11, 99)]⟩ ⟨11, [3]⟩ rfl rfl⟩

/-- Claim C8: a persisted record whose due time is already past at
reconciliation time is still re-armed at its stored due time rather than
dropped, and the timer delay the scheduler computes for it is zero, so the
action executes promptly. -/
theorem C8_past_due_armed (resolve : MemberId → ResolveResult) (w : World)
    (k : MemberId) (v : Timestamp) (now : Timestamp)
    (hnd : (keys w.cache).Nodup) (hmem : (k, v) ∈ w.cache)
    (hres : resolve k = ResolveResult.found) (hpast : v ≤ now) :
    lookupKey (reloadTasksFromRedis resolve w).sched k = some (utcfromtimestamp v) ∧
    schedDelay (utcfromtimestamp v) now = 0 := by
  refine ⟨reload_foldl_found resolve w.cache w k v hnd hmem hres, ?_⟩
  unfold schedDelay utcfromtimestamp
  exact max_eq_right (sub_nonpos.mpr hpast)

/-- Witness for C8_past_due_armed: member 8 has a record due at 5 while the
reconciliation clock already reads 10. -/
theorem C8_past_due_armed_witness :
    (keys [((8 : MemberId), (5 : Timestamp))]).Nodup ∧
    ((8 : MemberId), (5 : Timestamp)) ∈ [((8 : MemberId), (5 : Timestamp))] ∧
    ((fun _ : MemberId => ResolveResult.found) 8 = ResolveResult.found) ∧
    ((5 : Timestamp) ≤ 10) ∧
    (lookupKey (reloadTasksFromRedis (fun _ => ResolveResult.found)
        ⟨[], [(8, 5)]⟩).sched 8 = some 5 ∧
      schedDelay 5 10 = 0) :=
  ⟨by decide, by decide, rfl, by decide,
    C8_past_due_armed (fun _ => ResolveResult.found) ⟨[], [(8, 5)]⟩ 8 5 10
      (by decide) (by decide) rfl (by decide)⟩

/-- Claim C9: cancelling an id that is not pending is a no-op that returns
without error (the scheduler state is unchanged), and the revokestream
command issues its cancel only behind the pending-membership check: for a
non-pending holder of the role no cancel effect appears in the trace, yet
the revocation still completes normally. -/
theorem C9_idempotent_cancel (video : Nat) (w : World) (m : Member)
    (hrole : m.roles.contains video = true)
    (hnp : sched_contains w.sched m.id = false) :
    sched_cancel w.sched m.id = w.sched ∧
    (revokestreamCmd video w m false).2.1
      = [Effect.cacheDelE m.id, Effect.removeRolesE m.id, Effect.sendCheck m.id] ∧
    Effect.schedCancelE m.id ∉ (revokestreamCmd video w m false).2.1 ∧
    (revokestreamCmd video w m false).2.2 = Outcome.ok := by
  have hnone : lookupKey w.sched m.id = none := by
    unfold sched_contains at hnp
    cases hl : lookupKey w.sched m.id with
    | none => rfl
    | some d =>
        rw [hl] at hnp
        simp at hnp
  have hcancel : sched_cancel w.sched m.id = w.sched :=
    eraseKey_eq_self_of_not_mem ((lookupKey_eq_none_iff w.sched m.id).mp hnone)
  have hcmd : revokestreamCmd video w m false
      = ({ w with cache := cacheDelete w.cache m.id },
          [Effect.cacheDelE m.id, Effect.removeRolesE m.id, Effect.sendCheck m.id],
          Outcome.ok) := by
    have hmem : video ∈ m.roles := by simpa using hrole
    simp [revokestreamCmd, hmem, hnp, revokeStreamingPermission]
  refine ⟨hcancel, ?_, ?_, ?_⟩
  · rw [hcmd]
  · rw [hcmd]
    simp
  · rw [hcmd]

/-- Witness for C9_idempotent_cancel: member 13 holds video role 2 but only
member 4 is pending, so revoking 13 performs no cancel and still succeeds. -/
theorem C9_idempotent_cancel_witness :
    ([(2 : Nat)].contains 2 = true) ∧
    sched_contains [((4 : MemberId), (10 : Timestamp))] 13 = false ∧
    (sched_cancel [((4 : MemberId), (10 : Timestamp))] 13 = [(4, 10)] ∧
      (revokestreamCmd 2 ⟨[(4, 10)], [(13, 70)]⟩ ⟨13, [2]⟩ false).2.1
        = [Effect.cacheDelE 13, Effect.removeRolesE 13, Effect.sendCheck 13] ∧
      Effect.schedCancelE 13 ∉ (revokestreamCmd 2 ⟨[(4, 10)], [(13, 70)]⟩ ⟨13, [2]⟩ false).2.1 ∧
      (revokestreamCmd 2 ⟨[(4, 10)], [(13, 70)]⟩ ⟨13, [2]⟩ false).2.2 = Outcome.ok) :=
  ⟨rfl, rfl, C9_idempotent_cancel 2 ⟨[(4, 10)], [(13, 70)]⟩ ⟨13, [2]⟩ rfl rfl⟩

/-- Claim C10: in the fire path the durable record is deleted strictly before
the role-removal request is issued: the trace of the revoke action is always
the cache delete followed by the role removal, replaying the trace up to but
not including the role removal already shows no record for the member, and
even when the role removal raises the final state has no record left, so a
failed revocation is never retried from the store. -/
theorem C10_delete_precedes_revoke (w : World) (id : MemberId) :
    (revokeStreamingPermission w id false).2.1
      = [Effect.cacheDelE id, Effect.removeRolesE id] ∧
    (revokeStreamingPermission w id true).2.1
      = [Effect.cacheDelE id, Effect.removeRolesE id] ∧
    lookupKey (applyTrace w
        (List.take 1 (revokeStreamingPermission w id true).2.1)).cache id = none ∧
    lookupKey (revokeStreamingPermission w id true).1.cache id = none ∧
    (revokeStreamingPermission w id true).2.2 = Outcome.raised := by
  refine ⟨rfl, rfl, ?_, ?_, rfl⟩ <;> exact lookupKey_eraseKey_self w.cache id

end StreamBot
